import Mathlib

/-!
Verification development for the document-classifier backend
(an Express server keeping an in-memory list of classification
records with filtering, sorting, pagination, a PATCH update with
an undo ledger, and seed loading).

The JavaScript source is embedded shallowly:

* JS numbers used as confidence scores become rationals;
* timestamps (ISO strings produced and compared via Date) become
  natural-number instants in milliseconds;
* request query parameters arrive already parsed: an `Option` value
  is `none` when the parameter is absent, empty, or unparseable
  (JS truthiness of the raw query string is modelled at the use
  site, exactly as the handler tests it);
* the handlers' effects on the module-level mutable variables
  `classifications` and `undoHistory` are modelled by explicit
  state passing.

Where reference aliasing is the point (the shallow spread copy
`\x7b...obj\x7d` and the array copy `[...classifications]`), a small
heap model is used in which classification arrays, respectively
record objects, live in an addressed heap.
-/

/-- One classification label with its confidence score, as in the
seed data and request bodies: an object with fields `label` and
`score`. -/
structure ClassificationLabel where
  label : String
  score : ℚ
deriving DecidableEq, Repr

/-- A classification record as built by `loadInitialData` and the
POST handler: id, document name, classification list, manual-edit
flag and the two timestamps. -/
structure RecordVal where
  id : String
  document_name : String
  classifications : List ClassificationLabel
  manually_edited : Bool
  created_at : Nat
  updated_at : Nat
deriving DecidableEq, Repr, Inhabited

/-- Test whether `pat` occurs at the head of the character list. -/
def startsWithList : List Char → List Char → Bool
  | _, [] => true
  | [], _ :: _ => false
  | a :: s, b :: t => a = b && startsWithList s t

/-- Test whether `pat` occurs anywhere in the character list. -/
def containsSub (pat : List Char) : List Char → Bool
  | [] => startsWithList [] pat
  | c :: s => startsWithList (c :: s) pat || containsSub pat s

/-- JS substring test `s.includes(sub)`. -/
def jsIncludes (s sub : String) : Bool :=
  containsSub sub.toList s.toList

/-- Query parameters of GET /classifications after request parsing.
A `none` stands for an absent or falsy raw query value; numeric
parameters carry the `parseFloat` / `parseInt` result. -/
structure QueryParams where
  type : Option String := none
  min_confidence : Option ℚ := none
  max_confidence : Option ℚ := none
  sort : Option String := none
  order : Option String := none
  page : Option Int := none
  limit : Option Int := none

/-- Stage 1 of the GET handler: when `req.query.type` is truthy,
keep the records having some label whose lowercased text contains
the lowercased filter string. -/
def typeFilter (ty : Option String) (docs : List RecordVal) : List RecordVal :=
  match ty with
  | none => docs
  | some t =>
    if t = "" then docs
    else docs.filter (fun doc =>
      doc.classifications.any (fun c => jsIncludes c.label.toLower t.toLower))

/-- Stage 2 of the GET handler, the confidence range filter: the
`min_confidence` filter keeps records with some score at least the
bound, then the `max_confidence` filter keeps records with some
score at most the bound.  The two bounds run as two independent
`filter` passes, exactly as in the source. -/
def confRangeFilter (minC maxC : Option ℚ) (docs : List RecordVal) : List RecordVal :=
  let r1 :=
    match minC with
    | none => docs
    | some m => docs.filter (fun doc => doc.classifications.any (fun c => m ≤ c.score))
  match maxC with
  | none => r1
  | some x => r1.filter (fun doc => doc.classifications.any (fun c => c.score ≤ x))

/-- Comparison result of `String.localeCompare`, modelled as
code-point comparison yielding -1, 0 or 1. -/
def localeCompare (a b : String) : Int :=
  match compare a b with
  | Ordering.lt => -1
  | Ordering.eq => 0
  | Ordering.gt => 1

/-- JS `Math.max(...scores)` over the scores of a record: the
maximum as a `WithBot` rational, `Math.max()` of an empty list
being negative infinity. -/
def maxScore (doc : RecordVal) : WithBot ℚ :=
  (doc.classifications.map (fun c => c.score)).maximum

/-- The comparator of the sort stage, before the `order` sign is
applied: negative when `a` sorts before `b`.  The `confidence`
branch compares maximal scores, `updated` compares the
`updated_at` instants, an unrecognized sort key compares
everything equal. -/
def sortCmp (sortBy : String) (a b : RecordVal) : Int :=
  match sortBy with
  | "name" => localeCompare a.document_name b.document_name
  | "confidence" => if maxScore a ≤ maxScore b then (if maxScore b ≤ maxScore a then 0 else -1) else 1
  | "updated" => (a.updated_at : Int) - (b.updated_at : Int)
  | _ => 0

/-- Insertion of one element into a list sorted by the boolean
comparator `le`. -/
def insSorted (le : α → α → Bool) (a : α) : List α → List α
  | [] => [a]
  | b :: l => if le a b then a :: b :: l else b :: insSorted le a l

/-- Sorting by a boolean comparator, modelling
`Array.prototype.sort` with comparator `cmp` as a sort with
respect to `cmp(a,b) <= 0`. -/
def sortJs (le : α → α → Bool) : List α → List α
  | [] => []
  | a :: l => insSorted le a (sortJs le l)

/-- Stage 3 of the GET handler: when `req.query.sort` is given,
sort the (already copied) results with the comparator, the sign
flipped when `order` is `desc`; otherwise leave the order
unchanged. -/
def sortStage (sortQ orderQ : Option String) (docs : List RecordVal) : List RecordVal :=
  match sortQ with
  | none => docs
  | some sortBy =>
    let order : Int := if orderQ = some "desc" then -1 else 1
    sortJs (fun a b => order * sortCmp sortBy a b ≤ 0) docs

/-- JS `x || d` applied to a parsed integer parameter: the default
is taken when the parameter is absent, unparseable, or zero. -/
def jsOr (v : Option Int) (d : Int) : Int :=
  match v with
  | none => d
  | some x => if x = 0 then d else x

/-- JS `Array.prototype.slice(start, stop)` with signed indices:
a negative index counts from the end, then the indices are clamped
to the array bounds. -/
def jsSlice (l : List α) (start stop : Int) : List α :=
  let len : Int := l.length
  let s := if start < 0 then max (len + start) 0 else min start len
  let e := if stop < 0 then max (len + stop) 0 else min stop len
  (l.take e.toNat).drop s.toNat

/-- Pagination metadata reported by the GET handler. -/
structure PaginationInfo where
  page : Int
  limit : Int
  total : Nat
  pages : Int
deriving DecidableEq, Repr

/-- Stage 4 of the GET handler: page and limit default to 1 and
100 through `|| `, the slice `[start, start+limit)` is taken, and
the metadata reports the pre-pagination total together with
`Math.ceil(total / limit)` pages. -/
def paginateStage (pageQ limitQ : Option Int) (results : List RecordVal) :
    List RecordVal × PaginationInfo :=
  let page := jsOr pageQ 1
  let limit := jsOr limitQ 100
  let startIndex := (page - 1) * limit
  let endIndex := startIndex + limit
  (jsSlice results startIndex endIndex,
    { page := page, limit := limit, total := results.length,
      pages := ⌈(results.length : ℚ) / (limit : ℚ)⌉ })

/-- Response body of GET /classifications. -/
structure GetResponse where
  data : List RecordVal
  pagination : PaginationInfo
deriving DecidableEq, Repr

/-- The full GET /classifications pipeline on a copy of the
store's collection: type filter, confidence range filter, sort,
pagination. -/
def runQuery (p : QueryParams) (docs : List RecordVal) : GetResponse :=
  let results := typeFilter p.type docs
  let results := confRangeFilter p.min_confidence p.max_confidence results
  let results := sortStage p.sort p.order results
  let (paginated, pag) := paginateStage p.page p.limit results
  { data := paginated, pagination := pag }

/-!
The mutable server state: the module-level variables
`classifications` (an array of records) and `undoHistory` (a Map
from record id to the saved previous state with its timestamp).
-/

/-- One entry of `undoHistory`: the previous state saved before an
update, the time of the update, and the `canUndo` flag (always set
to `true` by the PATCH handler and never written `false`). -/
structure UndoEntry where
  previousState : RecordVal
  timestamp : Nat
  canUndo : Bool
deriving DecidableEq, Repr

/-- Lookup in a JS Map modelled as an association list. -/
def mapGet (m : List (String × UndoEntry)) (k : String) : Option UndoEntry :=
  (m.find? (fun p => p.1 = k)).map (fun p => p.2)

/-- Write to a JS Map: replace an existing binding for `k` in
place, otherwise append a new one. -/
def mapSet (m : List (String × UndoEntry)) (k : String) (v : UndoEntry) :
    List (String × UndoEntry) :=
  if m.any (fun p => p.1 = k) then
    m.map (fun p => if p.1 = k then (k, v) else p)
  else m ++ [(k, v)]

/-- Deletion from a JS Map. -/
def mapDelete (m : List (String × UndoEntry)) (k : String) : List (String × UndoEntry) :=
  m.filter (fun p => ¬ p.1 = k)

/-- The server's mutable state. -/
structure ServerState where
  classifications : List RecordVal
  undoHistory : List (String × UndoEntry)
deriving DecidableEq, Repr

/-- The per-entry transformation shared by `loadInitialData` and
the POST handler: assign a fresh id, copy name and classification
list, start with `manually_edited = false` and both timestamps at
`now`. -/
def mkRecord (freshId : String) (now : Nat) (document_name : String)
    (classifs : List ClassificationLabel) : RecordVal :=
  { id := freshId, document_name := document_name, classifications := classifs,
    manually_edited := false, created_at := now, updated_at := now }

/-- One element of the parsed seed array.  A JSON `null` element
is `nullish`: accessing `document_name` on it throws, aborting the
whole `map` before `classifications` is assigned.  An object
element carries the two fields the transformation reads. -/
inductive SeedElem where
  | nullish : SeedElem
  | doc (document_name : String) (classifs : List ClassificationLabel) : SeedElem
deriving DecidableEq, Repr

/-- The body of `data.map(...)` in `loadInitialData` on one seed
element, `none` modelling a thrown TypeError. -/
def transformSeedElem (freshId : String) (now : Nat) : SeedElem → Option RecordVal
  | SeedElem.nullish => none
  | SeedElem.doc name classifs => some (mkRecord freshId now name classifs)

/-- The whole `data.map(...)` of `loadInitialData`: ids are drawn
from the stream `uuid` of fresh identifiers; the first thrown
element aborts the map. -/
def transformSeed (uuid : Nat → String) (now : Nat) : Nat → List SeedElem → Option (List RecordVal)
  | _, [] => some []
  | i, d :: ds =>
    match transformSeedElem (uuid i) now d with
    | none => none
    | some r =>
      match transformSeed uuid now (i + 1) ds with
      | none => none
      | some rs => some (r :: rs)

/-- The `loadInitialData` function: the argument is the outcome of
reading and JSON-parsing the seed file (`none` when reading or
parsing throws).  Any failure lands in the catch block, which sets
the store to the empty array; otherwise the store becomes the
fully transformed seed in one assignment. -/
def loadInitialData (uuid : Nat → String) (now : Nat)
    (raw : Option (List SeedElem)) : List RecordVal :=
  match raw with
  | none => []
  | some data =>
    match transformSeed uuid now 0 data with
    | none => []
    | some recs => recs

/-- A PATCH request body: each field of the record may or may not
be present; a present field overwrites the record's field through
the object spread.  The spread order puts the body after the old
record but before the forced `manually_edited` and `updated_at`
fields, so a body field named `id` or `created_at` does land in
the updated record. -/
structure UpdatePatch where
  id : Option String := none
  document_name : Option String := none
  classifications : Option (List ClassificationLabel) := none
  manually_edited : Option Bool := none
  created_at : Option Nat := none
  updated_at : Option Nat := none

/-- The updated document built by the PATCH handler: old record
spread first, then the body, then `manually_edited: true` and
`updated_at: now`. -/
def mergeUpdate (old : RecordVal) (u : UpdatePatch) (now : Nat) : RecordVal :=
  { id := u.id.getD old.id,
    document_name := u.document_name.getD old.document_name,
    classifications := u.classifications.getD old.classifications,
    manually_edited := true,
    created_at := u.created_at.getD old.created_at,
    updated_at := now }

/-- Outcome of the PATCH handler. -/
inductive PatchResult where
  | notFound : PatchResult
  | ok (updated : RecordVal) : PatchResult
deriving DecidableEq, Repr

/-- The PATCH /classifications/:id handler: find the record (404
when absent), save the previous state into `undoHistory` keyed by
the request id, then replace the record by the merged update. -/
def patchHandler (s : ServerState) (idp : String) (u : UpdatePatch) (now : Nat) :
    ServerState × PatchResult :=
  match s.classifications.findIdx? (fun doc => doc.id = idp) with
  | none => (s, PatchResult.notFound)
  | some docIndex =>
    let old := s.classifications.getD docIndex default
    let previousState := old
    let history := mapSet s.undoHistory idp
      { previousState := previousState, timestamp := now, canUndo := true }
    let updatedDoc := mergeUpdate old u now
    ({ classifications := s.classifications.set docIndex updatedDoc,
       undoHistory := history },
     PatchResult.ok updatedDoc)

/-- Outcome of the undo handler: 400 with no changes to undo, 400
with the time limit exceeded, 404 with the document gone, or 200
with the restored record. -/
inductive UndoResult where
  | noChanges : UndoResult
  | expired : UndoResult
  | docNotFound : UndoResult
  | ok (restored : RecordVal) : UndoResult
deriving DecidableEq, Repr

/-- The undo time limit of the handler: 30 * 1000 milliseconds. -/
def undoTimeLimit : Nat := 30 * 1000

/-- The POST /classifications/:id/undo handler: reject when no
live entry exists; on an entry older than the time limit delete it
and reject; otherwise look the record up (404 when gone, keeping
the entry), overwrite it with the saved previous state as-is, and
delete the entry. -/
def undoHandler (s : ServerState) (idp : String) (now : Nat) :
    ServerState × UndoResult :=
  match mapGet s.undoHistory idp with
  | none => (s, UndoResult.noChanges)
  | some undoData =>
    if undoData.canUndo = false then (s, UndoResult.noChanges)
    else if now - undoData.timestamp > undoTimeLimit then
      ({ s with undoHistory := mapDelete s.undoHistory idp }, UndoResult.expired)
    else
      match s.classifications.findIdx? (fun doc => doc.id = idp) with
      | none => (s, UndoResult.docNotFound)
      | some docIndex =>
        ({ classifications := s.classifications.set docIndex undoData.previousState,
           undoHistory := mapDelete s.undoHistory idp },
         UndoResult.ok undoData.previousState)

/-- The GET /classifications handler: it copies the collection
with an array spread, runs the pure query pipeline on the copy
(the sort stage mutates only that copy), and returns the state
unchanged. -/
def getClassificationsHandler (s : ServerState) (p : QueryParams) :
    GetResponse × ServerState :=
  (runQuery p s.classifications, s)

/-!
Heap model for the undo snapshot (claim about deep copying).  A
record object's `classifications` field holds a reference to an
array object; the spread copy taken by the PATCH handler copies
the reference, not the array.  Arrays live in `classHeap`,
addressed by position.
-/

/-- A record object whose `classifications` field is a reference
into the array heap. -/
structure RecordH where
  id : String
  document_name : String
  classifAddr : Nat
  manually_edited : Bool
  created_at : Nat
  updated_at : Nat
deriving DecidableEq, Repr, Inhabited

/-- An `undoHistory` entry in the heap model; the saved previous
state is the spread copy, so its `classifAddr` is the address the
pre-update record held. -/
structure UndoEntryH where
  previousState : RecordH
  timestamp : Nat
  canUndo : Bool
deriving DecidableEq, Repr

/-- Server state in the heap model: the record array, the undo
map, and the heap of classification array objects. -/
structure HeapState where
  classifications : List RecordH
  undoHistory : List (String × UndoEntryH)
  classHeap : List (List ClassificationLabel)
deriving DecidableEq, Repr

/-- Map lookup, heap-model entries. -/
def mapGetH (m : List (String × UndoEntryH)) (k : String) : Option UndoEntryH :=
  (m.find? (fun p => p.1 = k)).map (fun p => p.2)

/-- Map write, heap-model entries. -/
def mapSetH (m : List (String × UndoEntryH)) (k : String) (v : UndoEntryH) :
    List (String × UndoEntryH) :=
  if m.any (fun p => p.1 = k) then
    m.map (fun p => if p.1 = k then (k, v) else p)
  else m ++ [(k, v)]

/-- Map deletion, heap-model entries. -/
def mapDeleteH (m : List (String × UndoEntryH)) (k : String) : List (String × UndoEntryH) :=
  m.filter (fun p => ¬ p.1 = k)

/-- Dereference a record's classification array. -/
def readClassifs (s : HeapState) (r : RecordH) : List ClassificationLabel :=
  s.classHeap.getD r.classifAddr []

/-- A PATCH body in the heap model; a provided `classifications`
field is a freshly parsed array from the request body, so the
update allocates a new array object for it. -/
structure UpdatePatchH where
  id : Option String := none
  document_name : Option String := none
  classifications : Option (List ClassificationLabel) := none
  created_at : Option Nat := none
deriving Repr

/-- Outcome of the PATCH handler in the heap model. -/
inductive PatchResultH where
  | notFound : PatchResultH
  | ok (updated : RecordH) : PatchResultH
deriving DecidableEq, Repr

/-- Outcome of the undo handler in the heap model. -/
inductive UndoResultH where
  | noChanges : UndoResultH
  | expired : UndoResultH
  | docNotFound : UndoResultH
  | ok (restored : RecordH) : UndoResultH
deriving DecidableEq, Repr

/-- The PATCH handler in the heap model.  The saved previous state
is the JS spread copy of the record object: every top-level field
is copied, so the `classifications` reference is shared between
the snapshot and the pre-update record.  When the body carries a
`classifications` array, a fresh array object is allocated for the
updated record; otherwise the updated record keeps the old
reference. -/
def patchHandlerH (s : HeapState) (idp : String) (u : UpdatePatchH) (now : Nat) :
    HeapState × PatchResultH :=
  match s.classifications.findIdx? (fun doc => doc.id = idp) with
  | none => (s, PatchResultH.notFound)
  | some docIndex =>
    let old := s.classifications.getD docIndex default
    let previousState := old
    let history := mapSetH s.undoHistory idp
      { previousState := previousState, timestamp := now, canUndo := true }
    let (heap, newAddr) :=
      match u.classifications with
      | none => (s.classHeap, old.classifAddr)
      | some fresh => (s.classHeap ++ [fresh], s.classHeap.length)
    let updatedDoc : RecordH :=
      { id := u.id.getD old.id,
        document_name := u.document_name.getD old.document_name,
        classifAddr := newAddr,
        manually_edited := true,
        created_at := u.created_at.getD old.created_at,
        updated_at := now }
    ({ classifications := s.classifications.set docIndex updatedDoc,
       undoHistory := history, classHeap := heap },
     PatchResultH.ok updatedDoc)

/-- The undo handler in the heap model; identical control flow to
the value model, restoring the saved record object. -/
def undoHandlerH (s : HeapState) (idp : String) (now : Nat) :
    HeapState × UndoResultH :=
  match mapGetH s.undoHistory idp with
  | none => (s, UndoResultH.noChanges)
  | some undoData =>
    if undoData.canUndo = false then (s, UndoResultH.noChanges)
    else if now - undoData.timestamp > undoTimeLimit then
      ({ s with undoHistory := mapDeleteH s.undoHistory idp }, UndoResultH.expired)
    else
      match s.classifications.findIdx? (fun doc => doc.id = idp) with
      | none => (s, UndoResultH.docNotFound)
      | some docIndex =>
        ({ s with
           classifications := s.classifications.set docIndex undoData.previousState,
           undoHistory := mapDeleteH s.undoHistory idp },
         UndoResultH.ok undoData.previousState)

/-- Modelled from the spec: an in-place mutation of the array
object at address `addr`, such as `Array.prototype.push` applied
to a live record's `classifications` through a reference.  The
repository's handlers never mutate a classification array in
place, but the snapshot-immunity requirement quantifies over such
mutations of the live record, so the model provides the operation
a JS caller holding the reference could perform. -/
def mutateClassAt (s : HeapState) (addr : Nat) (newArr : List ClassificationLabel) :
    HeapState :=
  { s with classHeap := s.classHeap.set addr newArr }

/-!
Heap model for the array copy returned by the GET handler.  Here
the record objects themselves live in a heap and the store's array
holds references to them; the spread `[...classifications]`
produces a fresh array object containing the same references.
-/

/-- Store state with record objects in a heap: `classifications`
is the store's array of references. -/
structure StoreStateB where
  recHeap : List RecordVal
  classifications : List Nat
deriving DecidableEq, Repr

/-- The array spread `[...classifications]`: a fresh array object
whose elements are the same record references. -/
def listSnapshotB (s : StoreStateB) : List Nat :=
  s.classifications

/-- Dereference one record reference. -/
def readRecordB (s : StoreStateB) (addr : Nat) : RecordVal :=
  s.recHeap.getD addr default

/-- The store's observable content: the records its array refers
to, in order. -/
def storeContentsB (s : StoreStateB) : List RecordVal :=
  s.classifications.map (readRecordB s)

/-- Mutation of a record object through a reference taken from the
returned snapshot, such as `snap[0].document_name = v`. -/
def writeDocNameB (s : StoreStateB) (addr : Nat) (v : String) : StoreStateB :=
  { s with
    recHeap := s.recHeap.mapIdx (fun i r =>
      if i = addr then { r with document_name := v } else r) }

/-!
Helper lemmas shared by the claim theorems.
-/

theorem mem_insSorted {le : α → α → Bool} {a b : α} {l : List α} :
    a ∈ insSorted le b l ↔ a = b ∨ a ∈ l := by
  induction l with
  | nil => simp [insSorted]
  | cons c l ih =>
    cases hbc : le b c with
    | true => simp [insSorted, hbc]
    | false =>
      simp only [insSorted, hbc, Bool.false_eq_true, if_false, List.mem_cons, ih]
      tauto

theorem mem_sortJs {le : α → α → Bool} {a : α} {l : List α} :
    a ∈ sortJs le l ↔ a ∈ l := by
  induction l with
  | nil => simp [sortJs]
  | cons b l ih => simp [sortJs, mem_insSorted, ih]

theorem length_insSorted {le : α → α → Bool} {b : α} {l : List α} :
    (insSorted le b l).length = l.length + 1 := by
  induction l with
  | nil => simp [insSorted]
  | cons c l ih =>
    cases hbc : le b c with
    | true => simp [insSorted, hbc]
    | false => simp [insSorted, hbc, ih]

theorem length_sortJs {le : α → α → Bool} {l : List α} :
    (sortJs le l).length = l.length := by
  induction l with
  | nil => rfl
  | cons b l ih => simp [sortJs, length_insSorted, ih]

theorem mem_sortStage {sq oq : Option String} {d : RecordVal} {l : List RecordVal} :
    d ∈ sortStage sq oq l ↔ d ∈ l := by
  cases sq with
  | none => simp [sortStage]
  | some sb => simp [sortStage, mem_sortJs]

theorem length_sortStage {sq oq : Option String} {l : List RecordVal} :
    (sortStage sq oq l).length = l.length := by
  cases sq with
  | none => rfl
  | some sb => simp [sortStage, length_sortJs]

theorem mem_of_mem_jsSlice {l : List α} {a : α} {s e : Int} (h : a ∈ jsSlice l s e) :
    a ∈ l := by
  unfold jsSlice at h
  exact List.mem_of_mem_take (List.mem_of_mem_drop h)

theorem mem_of_mem_typeFilter {ty : Option String} {d : RecordVal} {l : List RecordVal}
    (h : d ∈ typeFilter ty l) : d ∈ l := by
  cases ty with
  | none => exact h
  | some t =>
    simp only [typeFilter] at h
    by_cases ht : t = ""
    · simpa [ht] using h
    · rw [if_neg ht] at h
      exact List.mem_of_mem_filter h

theorem mem_of_mem_confRangeFilter {minC maxC : Option ℚ} {d : RecordVal}
    {l : List RecordVal} (h : d ∈ confRangeFilter minC maxC l) : d ∈ l := by
  unfold confRangeFilter at h
  cases minC with
  | none =>
    cases maxC with
    | none => exact h
    | some x => exact List.mem_of_mem_filter h
  | some m =>
    cases maxC with
    | none => exact List.mem_of_mem_filter h
    | some x => exact List.mem_of_mem_filter (List.mem_of_mem_filter h)

theorem mapGet_mapDelete_self (m : List (String × UndoEntry)) (k : String) :
    mapGet (mapDelete m k) k = none := by
  induction m with
  | nil => rfl
  | cons q m ih =>
    by_cases hq : q.1 = k
    · have : mapDelete (q :: m) k = mapDelete m k := by
        simp [mapDelete, hq]
      rw [this]; exact ih
    · have : mapDelete (q :: m) k = q :: mapDelete m k := by
        simp [mapDelete, hq]
      rw [this]
      simpa [mapGet, List.find?, hq] using ih

theorem mapGet_cons_of_mem {m : List (String × UndoEntry)} {k : String} {e : UndoEntry}
    (h : mapGet m k = some e) : (k, e) ∈ m := by
  unfold mapGet at h
  cases hf : m.find? (fun p => p.1 = k) with
  | none => rw [hf] at h; cases h
  | some q =>
    rw [hf] at h
    have hq : q.2 = e := by simpa using h
    have hmem := List.mem_of_find?_eq_some hf
    have hk : q.1 = k := by simpa using List.find?_some hf
    have : q = (k, e) := by
      cases q with
      | mk a b => simp_all
    rw [← this]; exact hmem

theorem findIdx?_isSome_of_exists {p : α → Bool} {l : List α} (h : ∃ a ∈ l, p a) :
    ∃ i, l.findIdx? p = some i := by
  cases hf : l.findIdx? p with
  | some i => exact ⟨i, rfl⟩
  | none =>
    obtain ⟨a, ha, hpa⟩ := h
    have hfalse := List.findIdx?_eq_none_iff.mp hf a ha
    simp_all

theorem patchHandler_found (s : ServerState) (idp : String) (u : UpdatePatch) (now : Nat)
    (i : Nat) (hidx : s.classifications.findIdx? (fun doc => doc.id = idp) = some i) :
    patchHandler s idp u now =
      ({ classifications := s.classifications.set i
           (mergeUpdate (s.classifications.getD i default) u now),
         undoHistory := mapSet s.undoHistory idp
           { previousState := s.classifications.getD i default,
             timestamp := now, canUndo := true } },
       PatchResult.ok (mergeUpdate (s.classifications.getD i default) u now)) := by
  unfold patchHandler
  rw [hidx]

theorem undoHandler_no_entry (s : ServerState) (idp : String) (now : Nat)
    (h : mapGet s.undoHistory idp = none) :
    undoHandler s idp now = (s, UndoResult.noChanges) := by
  unfold undoHandler
  rw [h]

theorem undoHandler_expired_case (s : ServerState) (idp : String) (now : Nat)
    (e : UndoEntry) (hentry : mapGet s.undoHistory idp = some e)
    (hcan : e.canUndo = true) (hexp : now - e.timestamp > undoTimeLimit) :
    undoHandler s idp now =
      ({ s with undoHistory := mapDelete s.undoHistory idp }, UndoResult.expired) := by
  unfold undoHandler
  rw [hentry]
  simp only [hcan, if_pos hexp]
  simp

theorem undoHandler_success (s : ServerState) (idp : String) (now : Nat)
    (e : UndoEntry) (i : Nat)
    (hentry : mapGet s.undoHistory idp = some e)
    (hcan : e.canUndo = true)
    (hfresh : ¬ now - e.timestamp > undoTimeLimit)
    (hidx : s.classifications.findIdx? (fun doc => doc.id = idp) = some i) :
    undoHandler s idp now =
      ({ classifications := s.classifications.set i e.previousState,
         undoHistory := mapDelete s.undoHistory idp },
       UndoResult.ok e.previousState) := by
  unfold undoHandler
  rw [hentry]
  simp only [hcan, if_neg hfresh]
  simp only [hidx]
  simp

/-!
Concrete sample data used by witnesses and counterexamples.
-/

/-- A fresh record as created at ingestion time, with an empty
classification list. -/
def sampleRecord : RecordVal :=
  { id := "a", document_name := "doc1", classifications := [],
    manually_edited := false, created_at := 0, updated_at := 0 }

/-- A one-record store with an empty undo ledger. -/
def sampleState : ServerState :=
  { classifications := [sampleRecord], undoHistory := [] }

/-- A PATCH body renaming the document. -/
def samplePatch : UpdatePatch := { document_name := some "B" }

/-- The store after PATCHing the sample record at time 2000. -/
def sampleAfterPatch : ServerState :=
  (patchHandler sampleState "a" samplePatch 2000).1

/-- The record of the range-filter example, with scores 0.1 and
0.9. -/
def surprisingRecord : RecordVal :=
  { id := "s", document_name := "doc2",
    classifications := [{ label := "a", score := mkRat 1 10 }, { label := "b", score := mkRat 9 10 }],
    manually_edited := false, created_at := 0, updated_at := 0 }

theorem anyMin_of_mem_confRangeFilter {m : ℚ} {maxC : Option ℚ} {d : RecordVal}
    {l : List RecordVal} (h : d ∈ confRangeFilter (some m) maxC l) :
    (d.classifications.any fun c => decide (m ≤ c.score)) = true := by
  unfold confRangeFilter at h
  cases maxC with
  | none => exact (List.mem_filter.mp h).2
  | some x => exact (List.mem_filter.mp (List.mem_of_mem_filter h)).2

theorem anyMax_of_mem_confRangeFilter {x : ℚ} {minC : Option ℚ} {d : RecordVal}
    {l : List RecordVal} (h : d ∈ confRangeFilter minC (some x) l) :
    (d.classifications.any fun c => decide (c.score ≤ x)) = true := by
  unfold confRangeFilter at h
  cases minC with
  | none => exact (List.mem_filter.mp h).2
  | some m => exact (List.mem_filter.mp h).2

/-- Claim C4: the confidence range filter keeps a record iff some
label's score is at least `min_confidence` (when given) and some
label's score is at most `max_confidence` (when given), the two
bounds evaluated independently against possibly different labels;
in particular the record with scores 0.1 and 0.9 passes
`min_confidence = 0.8` together with `max_confidence = 0.2`. -/
theorem confRangeFilter_independent_bounds :
    (∀ (minC maxC : Option ℚ) (docs : List RecordVal) (d : RecordVal),
      d ∈ confRangeFilter minC maxC docs ↔
        d ∈ docs ∧
        (∀ m, minC = some m → ∃ c ∈ d.classifications, m ≤ c.score) ∧
        (∀ x, maxC = some x → ∃ c ∈ d.classifications, c.score ≤ x)) ∧
    confRangeFilter (some (mkRat 8 10)) (some (mkRat 2 10)) [surprisingRecord] = [surprisingRecord] := by
  constructor
  · intro minC maxC docs d
    unfold confRangeFilter
    cases minC with
    | none =>
      cases maxC with
      | none => simp
      | some x => simp [List.mem_filter]
    | some m =>
      cases maxC with
      | none => simp [List.mem_filter]
      | some x =>
        simp [List.mem_filter, and_assoc]
        tauto
  · decide

/-- Claim C4 witness: the general equivalence applied to the
example record and bounds. -/
theorem confRangeFilter_independent_bounds_witness :
    surprisingRecord ∈ confRangeFilter (some (mkRat 8 10)) (some (mkRat 2 10)) [surprisingRecord] ∧
    (∃ c ∈ surprisingRecord.classifications, mkRat 8 10 ≤ c.score) ∧
    (∃ c ∈ surprisingRecord.classifications, c.score ≤ mkRat 2 10) := by
  have h := (confRangeFilter_independent_bounds.1 (some (mkRat 8 10)) (some (mkRat 2 10))
    [surprisingRecord] surprisingRecord).mp (by decide)
  exact ⟨(confRangeFilter_independent_bounds.1 (some (mkRat 8 10)) (some (mkRat 2 10))
    [surprisingRecord] surprisingRecord).mpr h,
    h.2.1 _ rfl, h.2.2 _ rfl⟩

/-- Claim C10: a record whose classifications list is empty is
excluded from the query results whenever the query gives a type
filter, a lower confidence bound, or an upper confidence bound,
because each filter requires some label to satisfy its condition
and the existential over an empty list is false. -/
theorem emptyClassifications_excluded (p : QueryParams) (docs : List RecordVal)
    (d : RecordVal) (hempty : d.classifications = [])
    (hgiven : (∃ t, p.type = some t ∧ t ≠ "") ∨
      p.min_confidence ≠ none ∨ p.max_confidence ≠ none) :
    d ∉ (runQuery p docs).data := by
  intro hmem
  have hmem1 : d ∈ sortStage p.sort p.order
      (confRangeFilter p.min_confidence p.max_confidence (typeFilter p.type docs)) :=
    mem_of_mem_jsSlice (by simpa [runQuery, paginateStage] using hmem)
  have hmem2 := mem_sortStage.mp hmem1
  rcases hgiven with ⟨t, ht, htne⟩ | hmin | hmax
  · have hmemT : d ∈ typeFilter p.type docs := mem_of_mem_confRangeFilter hmem2
    rw [ht] at hmemT
    simp only [typeFilter, if_neg htne] at hmemT
    have hpred := (List.mem_filter.mp hmemT).2
    rw [hempty] at hpred
    simp at hpred
  · obtain ⟨m, hm⟩ := Option.ne_none_iff_exists'.mp hmin
    rw [hm] at hmem2
    have hpred := anyMin_of_mem_confRangeFilter hmem2
    rw [hempty] at hpred
    simp at hpred
  · obtain ⟨x, hx⟩ := Option.ne_none_iff_exists'.mp hmax
    rw [hx] at hmem2
    have hpred := anyMax_of_mem_confRangeFilter hmem2
    rw [hempty] at hpred
    simp at hpred

/-- Claim C10 witness: the empty-classifications sample record is
excluded by a query with a lower confidence bound. -/
theorem emptyClassifications_excluded_witness :
    sampleRecord.classifications = [] ∧
    sampleRecord ∉ (runQuery { min_confidence := some 1 } [sampleRecord]).data :=
  ⟨rfl, emptyClassifications_excluded _ _ _ rfl (Or.inr (Or.inl (by simp)))⟩

theorem transformSeed_length {uuid : Nat → String} {now : Nat} {ds : List SeedElem}
    {i : Nat} {rs : List RecordVal} (h : transformSeed uuid now i ds = some rs) :
    rs.length = ds.length := by
  induction ds generalizing i rs with
  | nil =>
    simp only [transformSeed, Option.some.injEq] at h
    simp [← h]
  | cons d ds ih =>
    simp only [transformSeed] at h
    cases hd : transformSeedElem (uuid i) now d with
    | none => rw [hd] at h; cases h
    | some r =>
      rw [hd] at h
      cases ht : transformSeed uuid now (i + 1) ds with
      | none => rw [ht] at h; cases h
      | some rs2 =>
        rw [ht] at h
        simp only [Option.some.injEq] at h
        simp [← h, ih ht]

/-- Claim C9: seed loading is total (a parse failure lands in the
catch block instead of crashing) and all-or-nothing: for every
raw input the resulting store is either empty or consists of
exactly one transformed record per seed entry, never a proper
partial population. -/
theorem loadInitialData_failure_empty :
    (∀ (uuid : Nat → String) (now : Nat), loadInitialData uuid now none = []) ∧
    (∀ (uuid : Nat → String) (now : Nat) (data : List SeedElem),
      transformSeed uuid now 0 data = none →
      loadInitialData uuid now (some data) = []) ∧
    (∀ (uuid : Nat → String) (now : Nat) (raw : Option (List SeedElem)),
      loadInitialData uuid now raw = [] ∨
      ∃ data recs, raw = some data ∧ transformSeed uuid now 0 data = some recs ∧
        loadInitialData uuid now raw = recs ∧ recs.length = data.length) := by
  refine ⟨fun uuid now => rfl, ?_, ?_⟩
  · intro uuid now data h
    simp [loadInitialData, h]
  · intro uuid now raw
    cases raw with
    | none => exact Or.inl rfl
    | some data =>
      cases ht : transformSeed uuid now 0 data with
      | none => exact Or.inl (by simp [loadInitialData, ht])
      | some recs =>
        exact Or.inr ⟨data, recs, rfl, ht, by simp [loadInitialData, ht],
          transformSeed_length ht⟩

/-- Claim C9 witness: a seed array whose element is a JSON null
makes the element transformation throw, and the store is left
empty. -/
theorem loadInitialData_failure_empty_witness :
    loadInitialData (fun _ => "u") 0 (some [SeedElem.nullish]) = [] :=
  loadInitialData_failure_empty.2.1 (fun _ => "u") 0 [SeedElem.nullish] rfl

theorem take_min_drop (l : List α) (a b : Nat) :
    (l.take (min (a + b) l.length)).drop (min a l.length) = (l.drop a).take b := by
  by_cases ha : a ≤ l.length
  · rw [min_eq_left ha]
    by_cases hab : a + b ≤ l.length
    · rw [min_eq_left hab, List.drop_take]
      congr 1
      omega
    · rw [min_eq_right (le_of_not_le hab), List.take_length]
      symm
      apply List.take_of_length_le
      rw [List.length_drop]
      omega
  · rw [min_eq_right (by omega), min_eq_right (by omega), List.take_length,
      List.drop_length, List.drop_eq_nil_of_le (by omega : l.length ≤ a)]
    simp

/-- The 250 records of the pagination example. -/
def manyRecords : List RecordVal :=
  (List.range 250).map (fun i => mkRecord (toString i) 0 "doc" [])

/-- Claim C6: pagination takes the limit-length slice starting at
(page-1)*limit of the filtered and sorted sequence, an
out-of-range page yields an empty page rather than an error, the
reported total equals the count after filtering and before
pagination, pages equals the ceiling of total/limit, and 250
records with limit 100 and page 3 yield 50 records and 3 pages. -/
theorem paginateStage_spec :
    (∀ (pageQ limitQ : Option Int) (results : List RecordVal),
      1 ≤ jsOr pageQ 1 → 1 ≤ jsOr limitQ 100 →
      (paginateStage pageQ limitQ results).1 =
        (results.drop ((jsOr pageQ 1 - 1) * jsOr limitQ 100).toNat).take
          (jsOr limitQ 100).toNat ∧
      ((results.length : Int) ≤ (jsOr pageQ 1 - 1) * jsOr limitQ 100 →
        (paginateStage pageQ limitQ results).1 = []) ∧
      (paginateStage pageQ limitQ results).2.total = results.length ∧
      (paginateStage pageQ limitQ results).2.pages =
        ⌈(results.length : ℚ) / ((jsOr limitQ 100 : Int) : ℚ)⌉) ∧
    (∀ (p : QueryParams) (docs : List RecordVal),
      (runQuery p docs).pagination.total =
        (confRangeFilter p.min_confidence p.max_confidence (typeFilter p.type docs)).length) ∧
    (paginateStage (some 3) (some 100) manyRecords).1.length = 50 ∧
    (paginateStage (some 3) (some 100) manyRecords).2.pages = 3 := by
  have key : ∀ (limit : Int), 1 ≤ limit → ∀ (results : List RecordVal) (st : Int), 0 ≤ st →
      jsSlice results st (st + limit) = (results.drop st.toNat).take limit.toNat := by
    intro limit hl results st h0
    simp only [jsSlice]
    rw [if_neg (not_lt.mpr h0), if_neg (not_lt.mpr (by omega : (0:Int) ≤ st + limit))]
    have e1 : (min (st + limit) (results.length : Int)).toNat =
        min (st.toNat + limit.toNat) results.length := by omega
    have e2 : (min st (results.length : Int)).toNat = min st.toNat results.length := by omega
    rw [e1, e2]
    exact take_min_drop results st.toNat limit.toNat
  refine ⟨?_, ?_, ?_, ?_⟩
  · intro pageQ limitQ results hp hl
    have h0 : 0 ≤ (jsOr pageQ 1 - 1) * jsOr limitQ 100 :=
      mul_nonneg (by omega) (by omega)
    have hps : (paginateStage pageQ limitQ results).1 =
        jsSlice results ((jsOr pageQ 1 - 1) * jsOr limitQ 100)
          ((jsOr pageQ 1 - 1) * jsOr limitQ 100 + jsOr limitQ 100) := rfl
    have hslice := hps.trans (key _ hl results _ h0)
    refine ⟨hslice, ?_, rfl, rfl⟩
    intro hle
    rw [hslice]
    revert h0 hle
    generalize (jsOr pageQ 1 - 1) * jsOr limitQ 100 = st
    intro h0 hle
    rw [List.drop_eq_nil_of_le (by omega : results.length ≤ st.toNat)]
    simp
  · intro p docs
    simp [runQuery, paginateStage, length_sortStage]
  · have hps : (paginateStage (some 3) (some 100) manyRecords).1 =
        jsSlice manyRecords ((jsOr (some 3) 1 - 1) * jsOr (some 100) 100)
          ((jsOr (some 3) 1 - 1) * jsOr (some 100) 100 + jsOr (some 100) 100) := by
      simp only [paginateStage]
    have hj3 : jsOr (some 3) 1 = 3 := by norm_num [jsOr]
    have hj100 : jsOr (some 100) 100 = 100 := by norm_num [jsOr]
    rw [hps, hj3, hj100, show ((3:Int) - 1) * 100 = 200 by norm_num,
      key 100 (by omega) manyRecords 200 (by omega)]
    have hlen : manyRecords.length = 250 := by simp [manyRecords]
    simp [List.length_take, List.length_drop, hlen]
  · have hps : (paginateStage (some 3) (some 100) manyRecords).2.pages =
        ⌈(manyRecords.length : ℚ) / ((jsOr (some 100) 100 : Int) : ℚ)⌉ := by
      simp only [paginateStage]
    have hj100 : jsOr (some 100) 100 = 100 := by norm_num [jsOr]
    have hlen : manyRecords.length = 250 := by simp [manyRecords]
    rw [hps, hj100, hlen]
    rw [show (((250:Nat) : ℚ) / ((100 : Int) : ℚ)) = (5:ℚ)/2 by norm_num]
    rw [Int.ceil_eq_iff]
    constructor
    · norm_num
    · norm_num

/-- Claim C6 witness: the general pagination statement applied at
page 3 and limit 100 on an empty result list. -/
theorem paginateStage_spec_witness :
    (1:Int) ≤ jsOr (some 3) 1 ∧ (1:Int) ≤ jsOr (some 100) 100 ∧
    (paginateStage (some 3) (some 100) ([] : List RecordVal)).1 = [] := by
  refine ⟨by decide, by decide, ?_⟩
  have h := (paginateStage_spec.1 (some 3) (some 100) [] (by decide) (by decide)).1
  simpa using h

/-- Claim C1 counterexample: at a concrete input the undo at time
5000 succeeds, but the restored record keeps the snapshot's
updated_at value 0 instead of being refreshed to 5000, because
the handler assigns the saved previous state without touching any
timestamp. -/
theorem undo_no_updated_at_refresh_cex :
    (undoHandler sampleAfterPatch "a" 5000).2 = UndoResult.ok sampleRecord ∧
    ((undoHandler sampleAfterPatch "a" 5000).1.classifications.getD 0
      default).updated_at = 0 ∧
    ¬ ((undoHandler sampleAfterPatch "a" 5000).1.classifications.getD 0
      default).updated_at = 5000 := by
  decide

/-- Claim C1 amended: a successful undo overwrites the record at
the requested id with the saved snapshot verbatim with no
exception: every field, updated_at included, takes the snapshot's
value, so updated_at is not refreshed to the time of the undo. -/
theorem undo_restores_snapshot_verbatim (s : ServerState) (idp : String) (now : Nat)
    (e : UndoEntry) (i : Nat)
    (hentry : mapGet s.undoHistory idp = some e)
    (hcan : e.canUndo = true)
    (hfresh : now - e.timestamp ≤ undoTimeLimit)
    (hidx : s.classifications.findIdx? (fun doc => doc.id = idp) = some i) :
    (undoHandler s idp now).2 = UndoResult.ok e.previousState ∧
    (undoHandler s idp now).1.classifications =
      s.classifications.set i e.previousState := by
  rw [undoHandler_success s idp now e i hentry hcan (by omega) hidx]
  exact ⟨rfl, rfl⟩

/-- Claim C1 witness: the verbatim-restore statement applied to
the sample state. -/
theorem undo_restores_snapshot_verbatim_witness :
    (undoHandler sampleAfterPatch "a" 5000).2 = UndoResult.ok sampleRecord ∧
    (undoHandler sampleAfterPatch "a" 5000).1.classifications =
      sampleAfterPatch.classifications.set 0 sampleRecord := by
  have h := undo_restores_snapshot_verbatim sampleAfterPatch "a" 5000
    ⟨sampleRecord, 2000, true⟩ 0 (by decide) rfl (by decide) (by decide)
  exact h

/-- Claim C2 counterexample: the sample record is created with
manually_edited false, the update sets it true, but the
subsequent successful undo restores it to false, so it does not
remain true after an undo. -/
theorem manually_edited_not_sticky_cex :
    sampleRecord.manually_edited = false ∧
    (sampleAfterPatch.classifications.getD 0 default).manually_edited = true ∧
    (undoHandler sampleAfterPatch "a" 5000).2 = UndoResult.ok sampleRecord ∧
    ((undoHandler sampleAfterPatch "a" 5000).1.classifications.getD 0
      default).manually_edited = false := by
  decide

/-- Claim C2 amended: manually_edited is false at creation and
forced to true by every applied update, but a successful undo
restores the snapshot's manually_edited value as-is, so after one
update of a fresh record followed by a successful undo the flag is
false again rather than remaining true. -/
theorem manually_edited_provenance :
    (∀ (freshId : String) (now : Nat) (name : String)
        (cl : List ClassificationLabel),
      (mkRecord freshId now name cl).manually_edited = false) ∧
    (∀ (s : ServerState) (idp : String) (u : UpdatePatch) (now : Nat) (r : RecordVal),
      (patchHandler s idp u now).2 = PatchResult.ok r → r.manually_edited = true) ∧
    (∀ (s : ServerState) (idp : String) (now : Nat) (e : UndoEntry) (i : Nat),
      mapGet s.undoHistory idp = some e → e.canUndo = true →
      now - e.timestamp ≤ undoTimeLimit →
      s.classifications.findIdx? (fun doc => doc.id = idp) = some i →
      (undoHandler s idp now).1.classifications =
        s.classifications.set i e.previousState) ∧
    ((undoHandler sampleAfterPatch "a" 5000).1.classifications.getD 0
      default).manually_edited = false := by
  refine ⟨fun _ _ _ _ => rfl, ?_, ?_, by decide⟩
  · intro s idp u now r h
    unfold patchHandler at h
    cases hidx : s.classifications.findIdx? (fun doc => doc.id = idp) with
    | none => rw [hidx] at h; cases h
    | some i =>
      rw [hidx] at h
      simp only [Prod.snd, PatchResult.ok.injEq] at h
      rw [← h]
      rfl
  · intro s idp now e i hentry hcan hfresh hidx
    rw [undoHandler_success s idp now e i hentry hcan (by omega) hidx]

/-- Claim C2 witness: the update and undo statements applied to
the sample state. -/
theorem manually_edited_provenance_witness :
    (undoHandler sampleAfterPatch "a" 5000).1.classifications =
      sampleAfterPatch.classifications.set 0 sampleRecord ∧
    ∀ r, (patchHandler sampleState "a" samplePatch 2000).2 = PatchResult.ok r →
      r.manually_edited = true :=
  ⟨manually_edited_provenance.2.2.1 sampleAfterPatch "a" 5000
      ⟨sampleRecord, 2000, true⟩ 0 (by decide) rfl (by decide) (by decide),
    fun r h => manually_edited_provenance.2.1 sampleState "a" samplePatch 2000 r h⟩

/-- A PATCH body that tries to overwrite the record's id. -/
def evilPatch : UpdatePatch := { id := some "evil" }

/-- The record the PATCH handler stores for the sample record and
the id-overwriting body at time 2000. -/
def evilResultRecord : RecordVal :=
  { id := "evil", document_name := "doc1", classifications := [],
    manually_edited := true, created_at := 0, updated_at := 2000 }

/-- Claim C7: evaluation at the failing input: a PATCH body that
carries an id field lands after the old record in the object
spread, so it overwrites the record's store-assigned id; updating
the record whose id is "a" with body id "evil" leaves the store
holding a record with id "evil". -/
theorem patch_body_overwrites_id_cex :
    (patchHandler sampleState "a" evilPatch 2000).2 = PatchResult.ok evilResultRecord ∧
    ((patchHandler sampleState "a" evilPatch
      2000).1.classifications.getD 0 default).id = "evil" ∧
    ¬ ((patchHandler sampleState "a" evilPatch
      2000).1.classifications.getD 0 default).id = "a" := by
  decide

/-- Well-formedness of the server state: every ledger entry has
its canUndo flag set (the PATCH handler writes no other value) and
its key is the id of a live record (entries are only recorded for
records found by the PATCH handler, and ids are store-assigned).
This holds along executions that never send an update body
containing an id field. -/
def ledgerInv (s : ServerState) : Prop :=
  ∀ q ∈ s.undoHistory, q.2.canUndo = true ∧ ∃ r ∈ s.classifications, r.id = q.1

/-- Claim C5: with no ledger entry for the id, undo fails with the
no-changes error and leaves the state unchanged; with an entry
older than the 30-second limit, undo deletes the entry and fails
with the expiry error; otherwise undo deletes the entry and
restores the snapshot, so a second undo without an intervening
update fails with the no-changes error — at most one undo per
recorded update can succeed, and a failed expired undo leaves no
entry for the id. -/
theorem undo_error_protocol (s : ServerState) (idp : String) (now : Nat)
    (hinv : ledgerInv s) :
    (mapGet s.undoHistory idp = none →
      undoHandler s idp now = (s, UndoResult.noChanges)) ∧
    (∀ e, mapGet s.undoHistory idp = some e →
      now - e.timestamp > undoTimeLimit →
      (undoHandler s idp now).2 = UndoResult.expired ∧
      mapGet (undoHandler s idp now).1.undoHistory idp = none) ∧
    (∀ e, mapGet s.undoHistory idp = some e →
      now - e.timestamp ≤ undoTimeLimit →
      (undoHandler s idp now).2 = UndoResult.ok e.previousState ∧
      mapGet (undoHandler s idp now).1.undoHistory idp = none ∧
      ∀ now2, undoHandler (undoHandler s idp now).1 idp now2 =
        ((undoHandler s idp now).1, UndoResult.noChanges)) := by
  refine ⟨fun h => undoHandler_no_entry s idp now h, ?_, ?_⟩
  · intro e he hexp
    have hcan : e.canUndo = true := (hinv (idp, e) (mapGet_cons_of_mem he)).1
    rw [undoHandler_expired_case s idp now e he hcan hexp]
    exact ⟨rfl, mapGet_mapDelete_self _ _⟩
  · intro e he hfresh
    have hq := hinv (idp, e) (mapGet_cons_of_mem he)
    have hcan : e.canUndo = true := hq.1
    obtain ⟨r, hr, hid⟩ := hq.2
    have hex : ∃ a ∈ s.classifications, (fun doc => decide (doc.id = idp)) a = true :=
      ⟨r, hr, by simpa using hid⟩
    obtain ⟨i, hidx⟩ := findIdx?_isSome_of_exists hex
    rw [undoHandler_success s idp now e i he hcan (by omega) hidx]
    refine ⟨rfl, mapGet_mapDelete_self _ _, fun now2 => ?_⟩
    exact undoHandler_no_entry _ idp now2 (mapGet_mapDelete_self _ _)

/-- Claim C5 witness: the protocol applied to the sample state
after its update, at a time past the 30-second limit and at a
fresh time. -/
theorem undo_error_protocol_witness :
    ledgerInv sampleAfterPatch ∧
    (undoHandler sampleAfterPatch "a" 40000).2 = UndoResult.expired ∧
    mapGet (undoHandler sampleAfterPatch "a" 40000).1.undoHistory "a" = none ∧
    (undoHandler sampleAfterPatch "a" 5000).2 = UndoResult.ok sampleRecord := by
  have hinv : ledgerInv sampleAfterPatch := by
    unfold ledgerInv
    decide
  refine ⟨hinv, ?_, ?_, ?_⟩
  · exact ((undo_error_protocol sampleAfterPatch "a" 40000 hinv).2.1
      ⟨sampleRecord, 2000, true⟩ (by decide) (by decide)).1
  · exact ((undo_error_protocol sampleAfterPatch "a" 40000 hinv).2.1
      ⟨sampleRecord, 2000, true⟩ (by decide) (by decide)).2
  · exact ((undo_error_protocol sampleAfterPatch "a" 5000 hinv).2.2
      ⟨sampleRecord, 2000, true⟩ (by decide) (by decide)).1

/-- The original classification label of the heap-model sample. -/
def sampleLabelA : ClassificationLabel := { label := "invoice", score := mkRat 9 10 }

/-- A label appended later by an in-place mutation. -/
def sampleLabelB : ClassificationLabel := { label := "junk", score := mkRat 1 10 }

/-- The heap-model sample record, whose classifications reference
points at heap cell 0. -/
def sampleRecordH : RecordH :=
  { id := "a", document_name := "doc1", classifAddr := 0,
    manually_edited := false, created_at := 0, updated_at := 0 }

/-- The heap-model store: one record, an empty ledger, one
classification array. -/
def sampleHeapState : HeapState :=
  { classifications := [sampleRecordH], undoHistory := [],
    classHeap := [[sampleLabelA]] }

/-- The heap-model store after a rename PATCH at time 1000; the
body carries no classifications array, so the updated record keeps
the old array reference. -/
def heapAfterPatch : HeapState :=
  (patchHandlerH sampleHeapState "a" { document_name := some "B" } 1000).1

/-- The heap-model store after an in-place mutation pushes a
second label onto the live record's classification array. -/
def heapAfterMutation : HeapState :=
  mutateClassAt heapAfterPatch 0 [sampleLabelA, sampleLabelB]

/-- Claim C3: evaluation at the failing input: the undo snapshot
taken by the PATCH handler is the shallow spread copy, so its
classifications reference is the very reference the live record
holds (address 0, not an independent copy); after an in-place
mutation of that array, the successful undo restores a record
whose classification list reads as the mutated array, not as the
pre-update list. -/
theorem undo_snapshot_not_deep_copy_cex :
    (mapGetH heapAfterPatch.undoHistory "a").map
      (fun e => e.previousState.classifAddr) = some 0 ∧
    (heapAfterPatch.classifications.getD 0 default).classifAddr = 0 ∧
    (undoHandlerH heapAfterMutation "a" 2000).2 = UndoResultH.ok sampleRecordH ∧
    readClassifs (undoHandlerH heapAfterMutation "a" 2000).1
      ((undoHandlerH heapAfterMutation "a" 2000).1.classifications.getD 0 default) =
      [sampleLabelA, sampleLabelB] ∧
    ¬ readClassifs sampleHeapState sampleRecordH = [sampleLabelA, sampleLabelB] := by
  decide

/-- The heap-model store of the list-snapshot example: one record
object at address 0, referenced by the store's array. -/
def sampleStoreB : StoreStateB :=
  { recHeap := [sampleRecord], classifications := [0] }

/-- Claim C8 counterexample: the array copy returned for list()
shares its record objects with the store, so writing a field
through the reference found in the returned snapshot's first slot
changes the store's observable contents. -/
theorem snapshot_element_mutation_reaches_store_cex :
    listSnapshotB sampleStoreB = sampleStoreB.classifications ∧
    ¬ storeContentsB (writeDocNameB sampleStoreB
        ((listSnapshotB sampleStoreB).getD 0 0) "evil") =
      storeContentsB sampleStoreB := by
  decide

/-- Claim C8 amended: list() returns a fresh array (a shallow
copy) and querying never mutates the store: the GET handler
returns the state unchanged, so two consecutive calls yield
structurally equal responses and the store's records and their
order are untouched (the sort stage reorders only the copy), and
mutating a record object through the snapshot leaves the store's
reference array unchanged — but the record objects themselves are
shared with the store, which is the corrected part of the claim. -/
theorem list_query_nonmutation :
    (∀ (s : ServerState) (p : QueryParams), (getClassificationsHandler s p).2 = s) ∧
    (∀ (s : ServerState) (p : QueryParams),
      (getClassificationsHandler s p).1 =
        (getClassificationsHandler (getClassificationsHandler s p).2 p).1) ∧
    (∀ (s : StoreStateB) (addr : Nat) (v : String),
      (writeDocNameB s addr v).classifications = s.classifications) :=
  ⟨fun _ _ => rfl, fun _ _ => rfl, fun _ _ _ => rfl⟩
